import Mathlib

/-!
Verification development for the reboot-avoidance reconciliation engine of a
node-configuration daemon.  The repository contains several revisions of the
same component; they are embedded in separate namespaces:

* `P0` — the revision with `runPostUpdateActions(filesChanges, unitsChanges) bool`
  (`GetFileAction`, `GetUnitAction`, `getFilesChanges`, `getUnitsChanges`, ...);
* `P3` — the revision with `getPostUpdateActions`, `isDrainRequired` and
  `runPostUpdateActions(actions) bool` (drain flags via the embedded
  `DrainRequired` struct);
* `RF` — the early revision in `pkg/daemon/reboot_filter.go`
  (`GetAction`, `getFilesDiff`, `runPostActions`).

Go strings are modelled at rune granularity as `List Char` / `String`;
machine integers that never overflow here are `Nat`/`Int`; Go's
`error` results are `Except`; a Go runtime panic (nil-interface method call,
failed type assertion) is modelled as `Option.none` of the function's result.
Side effects of executing an action are made observable by returning, next to
the source function's boolean, the list of actions whose `Run` method was
invoked, in invocation order; external command execution is an explicit
environment parameter (`ExecEnv`).
-/

/-- Error value of Go's `path/filepath.ErrBadPattern`. -/
inductive MatchErr where
  | badPattern
  deriving DecidableEq

instance exceptDecEq {e a : Type} [DecidableEq e] [DecidableEq a] : DecidableEq (Except e a)
  | .error x, .error y =>
    if h : x = y then .isTrue (by rw [h]) else .isFalse (by intro hc; cases hc; exact h rfl)
  | .error _, .ok _ => .isFalse (by intro hc; cases hc)
  | .ok _, .error _ => .isFalse (by intro hc; cases hc)
  | .ok x, .ok y =>
    if h : x = y then .isTrue (by rw [h]) else .isFalse (by intro hc; cases hc; exact h rfl)

namespace filepath

/-- `scanChunk`'s leading-star consumption: drop every leading `*`. -/
def dropStars : List Char → List Char
  | '*' :: rest => dropStars rest
  | p => p

/-- Body of Go `scanChunk`'s scan loop: split the pattern at the first
unbracketed `*`, keeping `\x5cc` escape pairs together.  Returns
`(chunk, remainder)`. -/
def scanChunkBody (inrange : Bool) : List Char → List Char × List Char
  | [] => ([], [])
  | c :: rest =>
    if c = '\\' then
      match rest with
      | [] => ([c], [])
      | d :: rest2 =>
        let r := scanChunkBody inrange rest2
        (c :: d :: r.1, r.2)
    else if c = '*' ∧ inrange = false then ([], c :: rest)
    else
      let inr2 := if c = '[' then true else if c = ']' then false else inrange
      let r := scanChunkBody inr2 rest
      (c :: r.1, r.2)

/-- Go `scanChunk`: `(star, chunk, rest)`. -/
def scanChunk (pattern : List Char) : Bool × List Char × List Char :=
  let star : Bool := match pattern with | '*' :: _ => true | _ => false
  let p2 := dropStars pattern
  let r := scanChunkBody false p2
  (star, r.1, r.2)

/-- Go `getEsc`: read a possibly-escaped character of a character class.
Errors exactly where the source sets `ErrBadPattern`. -/
def getEsc : List Char → Except MatchErr (Char × List Char)
  | [] => .error .badPattern
  | c :: rest =>
    if c = '-' ∨ c = ']' then .error .badPattern
    else if c = '\\' then
      match rest with
      | [] => .error .badPattern
      | d :: rest2 => if rest2 = [] then .error .badPattern else .ok (d, rest2)
    else if rest = [] then .error .badPattern else .ok (c, rest)

/-- The range-parsing loop inside `matchChunk`'s `[` case.  `r` is the rune
taken from the name, `m` the accumulated match flag, `started` records
`nrange > 0`.  Returns `(matched, chunk after the closing bracket)`. -/
def matchRanges (fuel : Nat) (r : Char) (chunk : List Char) (m started : Bool) :
    Except MatchErr (Bool × List Char) :=
  match fuel with
  | 0 => .error .badPattern
  | fuel + 1 =>
    match chunk with
    | ']' :: rest =>
      if started then .ok (m, rest)
      else .error .badPattern
    | _ =>
      match getEsc chunk with
      | .error e => .error e
      | .ok (lo, chunk1) =>
        match chunk1 with
        | '-' :: chunk1' =>
          match getEsc chunk1' with
          | .error e => .error e
          | .ok (hi, chunk2) =>
            matchRanges fuel r chunk2 (m || (lo ≤ r ∧ r ≤ hi)) true
        | _ => matchRanges fuel r chunk1 (m || (lo ≤ r ∧ lo ≥ r)) true

/-- Go `matchChunk` (unix build): try to consume `chunk` from the front of
`s`.  `.ok (some t)` is a match leaving `t`, `.ok none` a plain mismatch,
`.error` a bad pattern. -/
def matchChunk (fuel : Nat) (chunk s : List Char) : Except MatchErr (Option (List Char)) :=
  match fuel with
  | 0 => .error .badPattern
  | fuel + 1 =>
    match chunk with
    | [] => .ok (some s)
    | c :: chunkRest =>
      match s with
      | [] => .ok none
      | sc :: sRest =>
        if c = '[' then
          match chunkRest with
          | [] => .error .badPattern
          | _ =>
            let negated : Bool := match chunkRest with | '^' :: _ => true | _ => false
            let chunk1 := if negated then chunkRest.tail else chunkRest
            match matchRanges (chunk1.length + 1) sc chunk1 false false with
            | .error e => .error e
            | .ok (m, chunkAfter) =>
              if m = negated then .ok none
              else matchChunk fuel chunkAfter sRest
        else if c = '?' then
          if sc = '/' then .ok none
          else matchChunk fuel chunkRest sRest
        else if c = '\\' then
          match chunkRest with
          | [] => .error .badPattern
          | d :: chunkRest2 =>
            if d = sc then matchChunk fuel chunkRest2 sRest else .ok none
        else
          if c = sc then matchChunk fuel chunkRest sRest else .ok none

mutual

/-- The `Pattern:` loop of Go 1.12's `filepath.Match`. -/
def goMatch (fuel : Nat) (pattern name : List Char) : Except MatchErr Bool :=
  match fuel with
  | 0 => .error .badPattern
  | fuel + 1 =>
    match pattern with
    | [] => .ok name.isEmpty
    | _ :: _ =>
      let s := scanChunk pattern
      let star := s.1
      let chunk := s.2.1
      let rest := s.2.2
      if star ∧ chunk = [] then .ok (! name.contains '/')
      else
        match matchChunk (chunk.length + 1) chunk name with
        | .ok (some t) =>
          if t = [] ∨ rest ≠ [] then goMatch fuel rest t
          else if star then starLoop fuel chunk rest name
          else .ok false
        | .ok none =>
          if star then starLoop fuel chunk rest name else .ok false
        | .error e => .error e

/-- The star-backtracking loop inside `filepath.Match`: retry `chunk` at each
later byte of `name`, not crossing a path separator. -/
def starLoop (fuel : Nat) (chunk rest name : List Char) : Except MatchErr Bool :=
  match fuel with
  | 0 => .error .badPattern
  | fuel + 1 =>
    match name with
    | [] => .ok false
    | c :: tail =>
      if c = '/' then .ok false
      else
        match matchChunk (chunk.length + 1) chunk tail with
        | .error e => .error e
        | .ok (some t) =>
          if rest = [] ∧ t ≠ [] then starLoop fuel chunk rest tail
          else goMatch fuel rest t
        | .ok none => starLoop fuel chunk rest tail

end

/-- Go `filepath.Match(pattern, name)`.  The fuel is an upper bound on the
number of loop iterations (each outer iteration strictly consumes pattern,
each star-backtrack strictly consumes name), so it is never exhausted. -/
def Match (pattern name : String) : Except MatchErr Bool :=
  goMatch (2 * pattern.length + name.length + 3) pattern.toList name.toList

end filepath

namespace igntypes

/-- `igntypes.File` (ignition v2.2): the diff logic reads only `Path` (the
identity) and compares whole values with `reflect.DeepEqual`, so the remaining
fields (contents source, verification, filesystem, mode, ...) are collapsed
into `Contents` and `Mode`. -/
structure File where
  Path : String
  Contents : String
  Mode : Int
  deriving DecidableEq

/-- `igntypes.Unit`: name (the identity), enabled flag, body contents, and
drop-in fragments (name/contents pairs); compared with `reflect.DeepEqual`. -/
structure Unit where
  Name : String
  Enabled : Bool
  Contents : String
  Dropins : List (String × String)
  deriving DecidableEq

end igntypes

/-- The zero value of `igntypes.File`, produced by a Go map access on a
missing key. -/
def zeroFile : igntypes.File := { Path := "", Contents := "", Mode := 0 }

/-- `mapset.NewSetFromSlice`: the set of the slice's elements.  Iteration
order of golang-set is unspecified; the embedding fixes a canonical order and
all set-dependent facts proved below are order-independent (memberships and
per-identity counts). -/
def newSetFromSlice {a : Type} [DecidableEq a] (l : List a) : List a := l.dedup

/-- `Set.Difference`: elements of `s` not in `t`. -/
def setDifference {a : Type} [DecidableEq a] (s t : List a) : List a :=
  s.filter (fun x => decide (x ∉ t))

/-- `Set.Intersect`: elements of `s` also in `t`. -/
def setIntersect {a : Type} [DecidableEq a] (s t : List a) : List a :=
  s.filter (fun x => decide (x ∈ t))

/-- The external command collaborator (`exec.Command(...).CombinedOutput()`):
maps a binary and its arguments to success or an error. -/
def ExecEnv : Type := String → List String → Except String Unit

namespace P0

/-! Embedding of the revision containing `GetFileAction` / `GetUnitAction` /
`getFilesChanges` / `getUnitsChanges` /
`runPostUpdateActions(filesChanges, unitsChanges) bool`. -/

/-- `UnitOperation` string constants `unitRestart` / `unitReload`. -/
inductive UnitOperation where
  | unitRestart
  | unitReload
  deriving DecidableEq

/-- The `PostUpdateAction` interface together with its three implementations
`RunBinaryAction`, `RunSystemctlAction`, `NoOpAction`, as a closed variant. -/
inductive PostUpdateAction where
  | RunBinaryAction (binary : String) (args : List String)
  | RunSystemctlAction (unitName : String) (operation : UnitOperation)
  | NoOpAction
  deriving DecidableEq

/-- `Run()` of each action.  `RunBinaryAction.Run` shells out to the external
command collaborator; `RunSystemctlAction.Run` only logs a warning and returns
`nil` (the systemd backend is an unimplemented TODO); `NoOpAction.Run`
returns `nil`. -/
def Run (env : ExecEnv) : PostUpdateAction → Except String Unit
  | .RunBinaryAction binary args => env binary args
  | .RunSystemctlAction _ _ => .ok ()
  | .NoOpAction => .ok ()

/-- `FileFilterEntry`. -/
structure FileFilterEntry where
  Glob : String
  PostUpdateAction : P0.PostUpdateAction
  Drain : Bool
  deriving DecidableEq

/-- `AvoidRebootConfig`. -/
structure AvoidRebootConfig where
  Files : List FileFilterEntry
  Units : List String
  deriving DecidableEq

/-- The `for _, entry := range config.Files` loop of `GetFileAction`:
a `filepath.Match` error skips the entry (`continue`, with only a
`TODO: log` comment), a match returns the entry's action. -/
def getFileActionLoop (filePath : String) : List FileFilterEntry → Option PostUpdateAction
  | [] => none
  | entry :: rest =>
    match filepath.Match entry.Glob filePath with
    | .error _ => getFileActionLoop filePath rest
    | .ok true => some entry.PostUpdateAction
    | .ok false => getFileActionLoop filePath rest

/-- `AvoidRebootConfig.GetFileAction`. -/
def GetFileAction (config : AvoidRebootConfig) (filePath : String) : Option PostUpdateAction :=
  getFileActionLoop filePath config.Files

/-- `getFileActionLoop` instrumented with the list of warnings the loop
surfaces to its caller for malformed patterns.  The source's
`if err != nil` branch contains only `// TODO: log` and `continue`, so no
branch ever emits a warning and the second component is always empty. -/
def getFileActionLogLoop (filePath : String) :
    List FileFilterEntry → Option PostUpdateAction × List String
  | [] => (none, [])
  | entry :: rest =>
    match filepath.Match entry.Glob filePath with
    | .error _ => getFileActionLogLoop filePath rest
    | .ok true => (some entry.PostUpdateAction, [])
    | .ok false => getFileActionLogLoop filePath rest

/-- The `for _, entry := range config.Units` loop of `GetUnitAction`:
plain string equality of the entry and the unit name. -/
def getUnitActionLoop (unitName : String) : List String → Option PostUpdateAction
  | [] => none
  | entry :: rest =>
    if entry = unitName then some (.RunSystemctlAction unitName .unitRestart)
    else getUnitActionLoop unitName rest

/-- `AvoidRebootConfig.GetUnitAction`. -/
def GetUnitAction (config : AvoidRebootConfig) (unitName : String) : Option PostUpdateAction :=
  getUnitActionLoop unitName config.Units

/-- The package-level `FilterConfig` value. -/
def FilterConfig : AvoidRebootConfig :=
  { Files := [
      { Glob := "/home/core/testfile",
        PostUpdateAction := .RunBinaryAction "/bin/bash"
          ["-c", "echo \"$(date)\" >> /home/core/testfile.out"],
        Drain := false } ],
    Units := ["testonly.service"] }

/-- `FileChangeType` string constants (`created` / `deleted` / `updated`);
only these three values are ever constructed. -/
inductive FileChangeType where
  | fileCreated
  | fileDeleted
  | fileUpdated
  deriving DecidableEq

/-- `FileChanged`. -/
structure FileChanged where
  name : String
  file : igntypes.File
  changeType : FileChangeType
  deriving DecidableEq

/-- `getFileNames`: `names[i] = file.Path`. -/
def getFileNames (files : List igntypes.File) : List String :=
  files.map (fun file => file.Path)

/-- `filesToMap` as a lookup function; on duplicate paths the later entry
wins, as for a Go map built left to right; a missing key yields `none`
(the caller takes the zero value). -/
def filesToMap (files : List igntypes.File) : String → Option igntypes.File :=
  fun path => files.reverse.find? (fun file => file.Path == path)

/-- `getFilesChanges`: created = new-only names, deleted = old-only names,
updated = names in both whose mapped files differ under
`reflect.DeepEqual`. -/
def getFilesChanges (oldFilesConfig newFilesConfig : List igntypes.File) : List FileChanged :=
  let oldFiles := newSetFromSlice (getFileNames oldFilesConfig)
  let oldFilesMap := filesToMap oldFilesConfig
  let newFiles := newSetFromSlice (getFileNames newFilesConfig)
  let newFilesMap := filesToMap newFilesConfig
  let createds := (setDifference newFiles oldFiles).map (fun n =>
    { name := n, file := (newFilesMap n).getD zeroFile, changeType := .fileCreated })
  let deleteds := (setDifference oldFiles newFiles).map (fun n =>
    { name := n, file := (oldFilesMap n).getD zeroFile, changeType := .fileDeleted })
  let updateds := (setIntersect newFiles oldFiles).filterMap (fun n =>
    let newFile := (newFilesMap n).getD zeroFile
    if newFile = (oldFilesMap n).getD zeroFile then none
    else some { name := n, file := newFile, changeType := .fileUpdated })
  createds ++ deleteds ++ updateds

/-- `getUnitNames`: `names[i] = unit.Name`. -/
def getUnitNames (units : List igntypes.Unit) : List String :=
  units.map (fun unit => unit.Name)

/-- Result of `unitsToMap`.  The source stores `&unit` — the address of the
single range-loop variable — as the value for every key, so the map is
represented by its key list plus that one shared cell, which after the loop
holds the last slice element. -/
structure UnitsMap where
  keys : List String
  cell : Option igntypes.Unit
  deriving DecidableEq

/-- The `for _, unit := range units { unitMap[unit.Name] = &unit }` loop. -/
def unitsToMapLoop : UnitsMap → List igntypes.Unit → UnitsMap
  | m, [] => m
  | m, unit :: rest => unitsToMapLoop { keys := m.keys ++ [unit.Name], cell := some unit } rest

/-- `unitsToMap`. -/
def unitsToMap (units : List igntypes.Unit) : UnitsMap :=
  unitsToMapLoop { keys := [], cell := none } units

/-- Go map access `unitMap[name]`: the zero value `nil` (`none`) on a missing
key, otherwise the shared pointer, which dereferences to the cell. -/
def UnitsMap.lookup (m : UnitsMap) (name : String) : Option igntypes.Unit :=
  if name ∈ m.keys then m.cell else none

/-- `UnitChanged` (`*igntypes.Unit` fields; `none` is a nil pointer). -/
structure UnitChanged where
  name : String
  oldUnit : Option igntypes.Unit
  newUnit : Option igntypes.Unit
  changeType : FileChangeType
  deriving DecidableEq

/-- `getUnitsChanges`.  `reflect.DeepEqual` on two `*igntypes.Unit` values is
equality of the `Option igntypes.Unit` views (nil pointers are equal, non-nil
pointers compare their pointees). -/
def getUnitsChanges (oldUnitsConfig newUnitsConfig : List igntypes.Unit) : List UnitChanged :=
  let oldUnits := newSetFromSlice (getUnitNames oldUnitsConfig)
  let oldUnitsMap := unitsToMap oldUnitsConfig
  let newUnits := newSetFromSlice (getUnitNames newUnitsConfig)
  let newUnitsMap := unitsToMap newUnitsConfig
  let createds := (setDifference newUnits oldUnits).map (fun n =>
    { name := n, newUnit := newUnitsMap.lookup n, oldUnit := none, changeType := .fileCreated })
  let deleteds := (setDifference oldUnits newUnits).map (fun n =>
    { name := n, newUnit := none, oldUnit := oldUnitsMap.lookup n, changeType := .fileDeleted })
  let updateds := (setIntersect newUnits oldUnits).filterMap (fun n =>
    let newUnit := newUnitsMap.lookup n
    let oldUnit := oldUnitsMap.lookup n
    if newUnit = oldUnit then none
    else some { name := n, newUnit := newUnit, oldUnit := oldUnit, changeType := .fileUpdated })
  createds ++ deleteds ++ updateds

/-- The files loop of `runPostUpdateActions`: created/updated changes look up
an action (accumulated on success, `return true` on `nil`), any other change
type (`default:`, i.e. deleted) returns `true` at once.  The early
`return true` exits are the `.error` values. -/
def resolveFileActions (config : AvoidRebootConfig) :
    List FileChanged → Except String (List PostUpdateAction)
  | [] => .ok []
  | change :: rest =>
    match change.changeType with
    | .fileCreated | .fileUpdated =>
      match GetFileAction config change.name with
      | none => .error ("No action found for file " ++ change.name)
      | some action =>
        match resolveFileActions config rest with
        | .error e => .error e
        | .ok actions => .ok (action :: actions)
    | .fileDeleted => .error ("File " ++ change.name ++ " was removed")

/-- The units loop of `runPostUpdateActions`, mirroring the files loop with
`GetUnitAction`. -/
def resolveUnitActions (config : AvoidRebootConfig) :
    List UnitChanged → Except String (List PostUpdateAction)
  | [] => .ok []
  | change :: rest =>
    match change.changeType with
    | .fileCreated | .fileUpdated =>
      match GetUnitAction config change.name with
      | none => .error ("No action found for unit " ++ change.name)
      | some action =>
        match resolveUnitActions config rest with
        | .error e => .error e
        | .ok actions => .ok (action :: actions)
    | .fileDeleted => .error ("Unit " ++ change.name ++ " was removed")

/-- The final `for _, action := range actions` loop: run each action, `return
true` on the first error, `false` when all succeed.  The second component
records, in order, the actions whose `Run` was invoked. -/
def runActionsLoop (env : ExecEnv) : List PostUpdateAction → Bool × List PostUpdateAction
  | [] => (false, [])
  | action :: rest =>
    match Run env action with
    | .error _ => (true, [action])
    | .ok _ =>
      let r := runActionsLoop env rest
      (r.1, action :: r.2)

/-- `runPostUpdateActions(filesChanges, unitsChanges) bool`.  The source reads
the package-level `FilterConfig`; the table is passed explicitly here.  The
second component is the list of actions actually executed. -/
def runPostUpdateActions (env : ExecEnv) (config : AvoidRebootConfig)
    (filesChanges : List FileChanged) (unitsChanges : List UnitChanged) :
    Bool × List PostUpdateAction :=
  match resolveFileActions config filesChanges with
  | .error _ => (true, [])
  | .ok fileActions =>
    match resolveUnitActions config unitsChanges with
    | .error _ => (true, [])
    | .ok unitActions => runActionsLoop env (fileActions ++ unitActions)

end P0

namespace P3

/-! Embedding of the revision containing `getFileAction` / `getUnitAction` /
`getPostUpdateActions` / `isDrainRequired` /
`runPostUpdateActions(actions) bool`, with drain flags carried by the
embedded `DrainRequired` struct. -/

/-- `UnitOperation` string constants. -/
inductive UnitOperation where
  | unitRestart
  | unitReload
  deriving DecidableEq

/-- The `PostUpdateAction` interface with its implementations
`RunBinaryAction` and `RunSystemctlAction`; the trailing `Bool` is the
embedded `DrainRequired.drainRequired` field. -/
inductive PostUpdateAction where
  | RunBinaryAction (binary : String) (args : List String) (drainRequired : Bool)
  | RunSystemctlAction (unitName : String) (operation : UnitOperation) (drainRequired : Bool)
  deriving DecidableEq

/-- `DrainRequired.getIsDrainRequired`. -/
def getIsDrainRequired : PostUpdateAction → Bool
  | .RunBinaryAction _ _ d => d
  | .RunSystemctlAction _ _ d => d

/-- `Run()` of each action, as in `P0.Run`. -/
def Run (env : ExecEnv) : PostUpdateAction → Except String Unit
  | .RunBinaryAction binary args _ => env binary args
  | .RunSystemctlAction _ _ _ => .ok ()

/-- `FileFilterEntry`. -/
structure FileFilterEntry where
  glob : String
  postUpdateAction : PostUpdateAction
  deriving DecidableEq

/-- `UnitFilterEntry`. -/
structure UnitFilterEntry where
  name : String
  drainRequired : Bool
  deriving DecidableEq

/-- `AvoidRebootConfig`. -/
structure AvoidRebootConfig where
  Files : List FileFilterEntry
  Units : List UnitFilterEntry
  deriving DecidableEq

/-- The package-level `filterConfig` value. -/
def filterConfig : AvoidRebootConfig :=
  { Files := [
      { glob := "/home/core/testfile",
        postUpdateAction := .RunBinaryAction "/bin/bash"
          ["-c", "echo \"$(date)\" >> /home/core/testfile.out"] false } ],
    Units := [ { name := "testonly.service", drainRequired := false } ] }

/-- The loop of `getFileAction` (identical control flow to
`P0.getFileActionLoop`). -/
def getFileActionLoop (filePath : String) : List FileFilterEntry → Option PostUpdateAction
  | [] => none
  | entry :: rest =>
    match filepath.Match entry.glob filePath with
    | .error _ => getFileActionLoop filePath rest
    | .ok true => some entry.postUpdateAction
    | .ok false => getFileActionLoop filePath rest

/-- `AvoidRebootConfig.getFileAction`. -/
def getFileAction (config : AvoidRebootConfig) (filePath : String) : Option PostUpdateAction :=
  getFileActionLoop filePath config.Files

/-- The loop of `getUnitAction`: plain string equality of `entry.name` and
the unit name; a hit builds a restart action carrying the entry's drain
flag. -/
def getUnitActionLoop (unitName : String) : List UnitFilterEntry → Option PostUpdateAction
  | [] => none
  | entry :: rest =>
    if entry.name = unitName then
      some (.RunSystemctlAction unitName .unitRestart entry.drainRequired)
    else getUnitActionLoop unitName rest

/-- `AvoidRebootConfig.getUnitAction`. -/
def getUnitAction (config : AvoidRebootConfig) (unitName : String) : Option PostUpdateAction :=
  getUnitActionLoop unitName config.Units

/-- `ChangeType` string constants. -/
inductive ChangeType where
  | changeCreated
  | changeDeleted
  | changeUpdated
  deriving DecidableEq

/-- `FileChange`. -/
structure FileChange where
  name : String
  file : igntypes.File
  changeType : ChangeType
  deriving DecidableEq

/-- `UnitChange`. -/
structure UnitChange where
  name : String
  oldUnit : Option igntypes.Unit
  newUnit : Option igntypes.Unit
  changeType : ChangeType
  deriving DecidableEq

/-- The files loop of `getPostUpdateActions`: created/updated changes look up
an action (`return nil, err` when none is found); the `default:` case
(deleted) returns `nil, err` at once. -/
def resolveFileActions (config : AvoidRebootConfig) :
    List FileChange → Except String (List PostUpdateAction)
  | [] => .ok []
  | change :: rest =>
    match change.changeType with
    | .changeCreated | .changeUpdated =>
      match getFileAction config change.name with
      | none => .error ("No action found for file " ++ change.name)
      | some action =>
        match resolveFileActions config rest with
        | .error e => .error e
        | .ok actions => .ok (action :: actions)
    | .changeDeleted => .error ("File " ++ change.name ++ " was removed")

/-- The units loop of `getPostUpdateActions`. -/
def resolveUnitActions (config : AvoidRebootConfig) :
    List UnitChange → Except String (List PostUpdateAction)
  | [] => .ok []
  | change :: rest =>
    match change.changeType with
    | .changeCreated | .changeUpdated =>
      match getUnitAction config change.name with
      | none => .error ("No action found for unit " ++ change.name)
      | some action =>
        match resolveUnitActions config rest with
        | .error e => .error e
        | .ok actions => .ok (action :: actions)
    | .changeDeleted => .error ("Unit " ++ change.name ++ " was removed")

/-- `getPostUpdateActions(filesChanges, unitsChanges) ([]PostUpdateAction,
error)`.  The source reads the package-level `filterConfig`; the table is
passed explicitly here. -/
def getPostUpdateActions (config : AvoidRebootConfig)
    (filesChanges : List FileChange) (unitsChanges : List UnitChange) :
    Except String (List PostUpdateAction) :=
  match resolveFileActions config filesChanges with
  | .error e => .error e
  | .ok fileActions =>
    match resolveUnitActions config unitsChanges with
    | .error e => .error e
    | .ok unitActions => .ok (fileActions ++ unitActions)

/-- `isDrainRequired`: `isRequired = isRequired || action.getIsDrainRequired()`
folded over the plan. -/
def isDrainRequired (actions : List PostUpdateAction) : Bool :=
  actions.foldl (fun isRequired action => isRequired || getIsDrainRequired action) false

/-- `runPostUpdateActions(actions) bool`: run each action in plan order,
`return true` on the first error, `false` when all succeed.  The second
component records, in order, the actions whose `Run` was invoked. -/
def runPostUpdateActions (env : ExecEnv) : List PostUpdateAction → Bool × List PostUpdateAction
  | [] => (false, [])
  | action :: rest =>
    match Run env action with
    | .error _ => (true, [action])
    | .ok _ =>
      let r := runPostUpdateActions env rest
      (r.1, action :: r.2)

end P3

namespace RF

/-! Embedding of the early revision in `pkg/daemon/reboot_filter.go`
(`GetAction`, `getFilesDiff`, `runPostActions`). -/

/-- `UnitOperation` string constants. -/
inductive UnitOperation where
  | unitRestart
  | unitReload
  deriving DecidableEq

/-- The `PostUpdateAction` interface with its implementations. -/
inductive PostUpdateAction where
  | RunBinaryAction (binary : String) (args : List String)
  | RunSystemctlAction (unitName : String) (operation : UnitOperation)
  | NoOpAction
  deriving DecidableEq

/-- `Run()` of each action. -/
def Run (env : ExecEnv) : PostUpdateAction → Except String Unit
  | .RunBinaryAction binary args => env binary args
  | .RunSystemctlAction _ _ => .ok ()
  | .NoOpAction => .ok ()

/-- `FileFilterEntry`. -/
structure FileFilterEntry where
  Glob : String
  PostUpdateAction : RF.PostUpdateAction
  Drain : Bool
  deriving DecidableEq

/-- `AvoidRebootConfig`. -/
structure AvoidRebootConfig where
  Files : List FileFilterEntry
  Units : List String
  deriving DecidableEq

/-- The loop of `(*AvoidRebootConfig).GetAction` (same control flow as
`P0.getFileActionLoop`). -/
def getActionLoop (filePath : String) : List FileFilterEntry → Option PostUpdateAction
  | [] => none
  | entry :: rest =>
    match filepath.Match entry.Glob filePath with
    | .error _ => getActionLoop filePath rest
    | .ok true => some entry.PostUpdateAction
    | .ok false => getActionLoop filePath rest

/-- `GetAction`. -/
def GetAction (config : AvoidRebootConfig) (filePath : String) : Option PostUpdateAction :=
  getActionLoop filePath config.Files

/-- The package-level `FilterConfig` value. -/
def FilterConfig : AvoidRebootConfig :=
  { Files := [
      { Glob := "/etc/kubernetes/kubelet.conf",
        PostUpdateAction := .RunSystemctlAction "kubelet.service" .unitReload,
        Drain := false } ],
    Units := ["chronyd.service", "sshd.service"] }

/-- `FileChangeType` string constants. -/
inductive FileChangeType where
  | fileCreated
  | fileDeleted
  | fileUpdated
  deriving DecidableEq

/-- `FileChanged`. -/
structure FileChanged where
  name : String
  file : igntypes.File
  changeType : FileChangeType
  deriving DecidableEq

/-- This revision's `getFileNames` appends to a slice already sized
`make([]interface{}, len(files))`, so the result carries `len(files)` nil
interface values (`none`) before the paths. -/
def getFileNames (files : List igntypes.File) : List (Option String) :=
  List.replicate files.length none ++ files.map (fun file => some file.Path)

/-- `filesToMap` (correct in this revision), as a lookup function. -/
def filesToMap (files : List igntypes.File) : String → Option igntypes.File :=
  fun path => files.reverse.find? (fun file => file.Path == path)

/-- The `created` loop of `getFilesDiff`.  The iterated set elements are
`interface{}` values; `created.(string)` on a nil element is a failed type
assertion, i.e. a panic (`none`). -/
def createdLoop (newFilesMap : String → Option igntypes.File)
    (acc : List (Option FileChanged)) :
    List (Option String) → Option (List (Option FileChanged))
  | [] => some acc
  | none :: _ => none
  | some n :: rest =>
    createdLoop newFilesMap
      (acc ++ [some { name := n, file := (newFilesMap n).getD zeroFile,
                      changeType := .fileCreated }]) rest

/-- The `deleted` loop of `getFilesDiff`. -/
def deletedLoop (oldFilesMap : String → Option igntypes.File)
    (acc : List (Option FileChanged)) :
    List (Option String) → Option (List (Option FileChanged))
  | [] => some acc
  | none :: _ => none
  | some n :: rest =>
    deletedLoop oldFilesMap
      (acc ++ [some { name := n, file := (oldFilesMap n).getD zeroFile,
                      changeType := .fileDeleted }]) rest

/-- The `changeCandidate` loop of `getFilesDiff`. -/
def updatedLoop (newFilesMap oldFilesMap : String → Option igntypes.File)
    (acc : List (Option FileChanged)) :
    List (Option String) → Option (List (Option FileChanged))
  | [] => some acc
  | none :: _ => none
  | some n :: rest =>
    let newFile := (newFilesMap n).getD zeroFile
    if newFile = (oldFilesMap n).getD zeroFile then
      updatedLoop newFilesMap oldFilesMap acc rest
    else
      updatedLoop newFilesMap oldFilesMap
        (acc ++ [some { name := n, file := newFile, changeType := .fileUpdated }]) rest

/-- `getFilesDiff`.  Faithful to the source: the `changes` slice is created
with `make([]*FileChanged, newFiles.Cardinality())` (that many nil pointers,
`none`, precede every appended change), the `created` loop iterates
`oldFiles.Difference(newFiles)` and the `deleted` loop
`newFiles.Difference(oldFiles)` (sets swapped with respect to the labels),
and a nil set element reaching a `.(string)` assertion panics (`none`
result). -/
def getFilesDiff (oldFilesConfig newFilesConfig : List igntypes.File) :
    Option (List (Option FileChanged)) :=
  let oldFiles := newSetFromSlice (getFileNames oldFilesConfig)
  let oldFilesMap := filesToMap oldFilesConfig
  let newFiles := newSetFromSlice (getFileNames newFilesConfig)
  let newFilesMap := filesToMap newFilesConfig
  let changes0 : List (Option FileChanged) := List.replicate newFiles.length none
  match createdLoop newFilesMap changes0 (setDifference oldFiles newFiles) with
  | none => none
  | some c1 =>
    match deletedLoop oldFilesMap c1 (setDifference newFiles oldFiles) with
    | none => none
    | some c2 => updatedLoop newFilesMap oldFilesMap c2 (setIntersect newFiles oldFiles)

/-- The change loop of `runPostActions`: only `fileUpdated` is cased; a
found action triggers `return true` (`.error true`), a nil action is
appended to the slice; every other change type returns `true`. -/
def resolveLoop (config : AvoidRebootConfig) (acc : List (Option PostUpdateAction)) :
    List FileChanged → Except Bool (List (Option PostUpdateAction))
  | [] => .ok acc
  | change :: rest =>
    match change.changeType with
    | .fileUpdated =>
      match GetAction config change.name with
      | some _ => .error true
      | none => resolveLoop config (acc ++ [none]) rest
    | _ => .error true

/-- The action loop of `runPostActions`: calling `Run()` on a nil
`PostUpdateAction` interface value is a panic (`none`). -/
def runLoop (env : ExecEnv) : List (Option PostUpdateAction) → Option Bool
  | [] => some false
  | none :: _ => none
  | some action :: rest =>
    match Run env action with
    | .error _ => some true
    | .ok _ => runLoop env rest

/-- `runPostActions(changes) bool`.  The `actions` slice starts as
`make([]PostUpdateAction, len(changes))` — `len(changes)` nil interface
values.  `some b` is a normal return of `b`; `none` is a panic. -/
def runPostActions (env : ExecEnv) (config : AvoidRebootConfig)
    (changes : List FileChanged) : Option Bool :=
  match resolveLoop config (List.replicate changes.length none) changes with
  | .error b => .some b
  | .ok actions => runLoop env actions

end RF

/-! Concrete values used by the closed theorems and witnesses below. -/

/-- A file `/a` of the old snapshot. -/
def fileA : igntypes.File := { Path := "/a", Contents := "A", Mode := 420 }

/-- A file `/b` of the new snapshot. -/
def fileB : igntypes.File := { Path := "/b", Contents := "B", Mode := 420 }

/-- File `x` with contents `v1`. -/
def fileX1 : igntypes.File := { Path := "x", Contents := "v1", Mode := 420 }

/-- File `x` with contents `v2`. -/
def fileX2 : igntypes.File := { Path := "x", Contents := "v2", Mode := 420 }

/-- File `y` with contents `v0`. -/
def fileY0 : igntypes.File := { Path := "y", Contents := "v0", Mode := 420 }

/-- Unit `x.service` with body `v1`. -/
def unitX1 : igntypes.Unit :=
  { Name := "x.service", Enabled := true, Contents := "v1", Dropins := [] }

/-- Unit `x.service` with body `v2`. -/
def unitX2 : igntypes.Unit :=
  { Name := "x.service", Enabled := true, Contents := "v2", Dropins := [] }

/-- Unit `y.service` with body `v0`. -/
def unitY0 : igntypes.Unit :=
  { Name := "y.service", Enabled := true, Contents := "v0", Dropins := [] }

/-- A first remediation action. -/
def actA : P0.PostUpdateAction := .RunBinaryAction "/bin/a" []

/-- A second remediation action, distinct from `actA`. -/
def actB : P0.PostUpdateAction := .RunBinaryAction "/bin/b" []

/-- A table whose first and second rules both match `/a`
(`/a` literally, `/*` by glob). -/
def cfgTwoMatches : P0.AvoidRebootConfig :=
  { Files := [ { Glob := "/a", PostUpdateAction := actA, Drain := false },
               { Glob := "/*", PostUpdateAction := actB, Drain := false } ],
    Units := [] }

/-- A table whose only unit rule carries the glob-shaped matcher
`*.service`. -/
def cfgGlobUnitP0 : P0.AvoidRebootConfig := { Files := [], Units := ["*.service"] }

/-- The same table in the `P3` revision's shape. -/
def cfgGlobUnitP3 : P3.AvoidRebootConfig :=
  { Files := [], Units := [ { name := "*.service", drainRequired := false } ] }

/-- A table whose first rule has the malformed glob `[` and whose second rule
matches `/a`. -/
def cfgBadGlob : P0.AvoidRebootConfig :=
  { Files := [ { Glob := "[", PostUpdateAction := actA, Drain := false },
               { Glob := "/a", PostUpdateAction := actB, Drain := false } ],
    Units := [] }

/-- An execution environment in which every command succeeds. -/
def envAllOk : ExecEnv := fun _ _ => .ok ()

/-- An execution environment in which exactly the binary `/bin/fail`
fails. -/
def envFailOnly : ExecEnv := fun binary _ =>
  if binary = "/bin/fail" then .error "exit status 1" else .ok ()

/-- A three-action plan whose second action fails under `envFailOnly`. -/
def planThree : List P3.PostUpdateAction :=
  [ .RunBinaryAction "/bin/first" [] false,
    .RunBinaryAction "/bin/fail" [] true,
    .RunBinaryAction "/bin/third" [] false ]

/-- A deleted-file change record in the `P0` revision's shape. -/
def delFileChange : P0.FileChanged :=
  { name := "/gone", file := fileA, changeType := .fileDeleted }

/-- A deleted-file change record in the `P3` revision's shape. -/
def delFileChange3 : P3.FileChange :=
  { name := "/gone", file := fileA, changeType := .changeDeleted }

/-! Theorems. -/

/-- The files loop of `P0.runPostUpdateActions` exits early whenever the list
contains a deleted change. -/
theorem p0_resolveFileActions_error_of_deleted (config : P0.AvoidRebootConfig)
    (l : List P0.FileChanged) (hl : ∃ c ∈ l, c.changeType = .fileDeleted) :
    ∃ e, P0.resolveFileActions config l = .error e := by
  induction l with
  | nil => simp at hl
  | cons c rest ih =>
    obtain ⟨d, hd, hdt⟩ := hl
    rcases List.mem_cons.mp hd with hdc | hdrest
    · subst hdc
      exact ⟨"File " ++ d.name ++ " was removed", by simp [P0.resolveFileActions, hdt]⟩
    · cases hct : c.changeType with
      | fileDeleted =>
        exact ⟨"File " ++ c.name ++ " was removed", by simp [P0.resolveFileActions, hct]⟩
      | fileCreated =>
        obtain ⟨e, he⟩ := ih ⟨d, hdrest, hdt⟩
        cases hga : P0.GetFileAction config c.name with
        | none =>
          exact ⟨"No action found for file " ++ c.name, by
            simp [P0.resolveFileActions, hct, hga]⟩
        | some a => exact ⟨e, by simp [P0.resolveFileActions, hct, hga, he]⟩
      | fileUpdated =>
        obtain ⟨e, he⟩ := ih ⟨d, hdrest, hdt⟩
        cases hga : P0.GetFileAction config c.name with
        | none =>
          exact ⟨"No action found for file " ++ c.name, by
            simp [P0.resolveFileActions, hct, hga]⟩
        | some a => exact ⟨e, by simp [P0.resolveFileActions, hct, hga, he]⟩

/-- The units loop of `P0.runPostUpdateActions` exits early whenever the list
contains a deleted change. -/
theorem p0_resolveUnitActions_error_of_deleted (config : P0.AvoidRebootConfig)
    (l : List P0.UnitChanged) (hl : ∃ c ∈ l, c.changeType = .fileDeleted) :
    ∃ e, P0.resolveUnitActions config l = .error e := by
  induction l with
  | nil => simp at hl
  | cons c rest ih =>
    obtain ⟨d, hd, hdt⟩ := hl
    rcases List.mem_cons.mp hd with hdc | hdrest
    · subst hdc
      exact ⟨"Unit " ++ d.name ++ " was removed", by simp [P0.resolveUnitActions, hdt]⟩
    · cases hct : c.changeType with
      | fileDeleted =>
        exact ⟨"Unit " ++ c.name ++ " was removed", by simp [P0.resolveUnitActions, hct]⟩
      | fileCreated =>
        obtain ⟨e, he⟩ := ih ⟨d, hdrest, hdt⟩
        cases hga : P0.GetUnitAction config c.name with
        | none =>
          exact ⟨"No action found for unit " ++ c.name, by
            simp [P0.resolveUnitActions, hct, hga]⟩
        | some a => exact ⟨e, by simp [P0.resolveUnitActions, hct, hga, he]⟩
      | fileUpdated =>
        obtain ⟨e, he⟩ := ih ⟨d, hdrest, hdt⟩
        cases hga : P0.GetUnitAction config c.name with
        | none =>
          exact ⟨"No action found for unit " ++ c.name, by
            simp [P0.resolveUnitActions, hct, hga]⟩
        | some a => exact ⟨e, by simp [P0.resolveUnitActions, hct, hga, he]⟩

/-- The files loop of `P3.getPostUpdateActions` exits early whenever the list
contains a deleted change. -/
theorem p3_resolveFileActions_error_of_deleted (config : P3.AvoidRebootConfig)
    (l : List P3.FileChange) (hl : ∃ c ∈ l, c.changeType = .changeDeleted) :
    ∃ e, P3.resolveFileActions config l = .error e := by
  induction l with
  | nil => simp at hl
  | cons c rest ih =>
    obtain ⟨d, hd, hdt⟩ := hl
    rcases List.mem_cons.mp hd with hdc | hdrest
    · subst hdc
      exact ⟨"File " ++ d.name ++ " was removed", by simp [P3.resolveFileActions, hdt]⟩
    · cases hct : c.changeType with
      | changeDeleted =>
        exact ⟨"File " ++ c.name ++ " was removed", by simp [P3.resolveFileActions, hct]⟩
      | changeCreated =>
        obtain ⟨e, he⟩ := ih ⟨d, hdrest, hdt⟩
        cases hga : P3.getFileAction config c.name with
        | none =>
          exact ⟨"No action found for file " ++ c.name, by
            simp [P3.resolveFileActions, hct, hga]⟩
        | some a => exact ⟨e, by simp [P3.resolveFileActions, hct, hga, he]⟩
      | changeUpdated =>
        obtain ⟨e, he⟩ := ih ⟨d, hdrest, hdt⟩
        cases hga : P3.getFileAction config c.name with
        | none =>
          exact ⟨"No action found for file " ++ c.name, by
            simp [P3.resolveFileActions, hct, hga]⟩
        | some a => exact ⟨e, by simp [P3.resolveFileActions, hct, hga, he]⟩

/-- The units loop of `P3.getPostUpdateActions` exits early whenever the list
contains a deleted change. -/
theorem p3_resolveUnitActions_error_of_deleted (config : P3.AvoidRebootConfig)
    (l : List P3.UnitChange) (hl : ∃ c ∈ l, c.changeType = .changeDeleted) :
    ∃ e, P3.resolveUnitActions config l = .error e := by
  induction l with
  | nil => simp at hl
  | cons c rest ih =>
    obtain ⟨d, hd, hdt⟩ := hl
    rcases List.mem_cons.mp hd with hdc | hdrest
    · subst hdc
      exact ⟨"Unit " ++ d.name ++ " was removed", by simp [P3.resolveUnitActions, hdt]⟩
    · cases hct : c.changeType with
      | changeDeleted =>
        exact ⟨"Unit " ++ c.name ++ " was removed", by simp [P3.resolveUnitActions, hct]⟩
      | changeCreated =>
        obtain ⟨e, he⟩ := ih ⟨d, hdrest, hdt⟩
        cases hga : P3.getUnitAction config c.name with
        | none =>
          exact ⟨"No action found for unit " ++ c.name, by
            simp [P3.resolveUnitActions, hct, hga]⟩
        | some a => exact ⟨e, by simp [P3.resolveUnitActions, hct, hga, he]⟩
      | changeUpdated =>
        obtain ⟨e, he⟩ := ih ⟨d, hdrest, hdt⟩
        cases hga : P3.getUnitAction config c.name with
        | none =>
          exact ⟨"No action found for unit " ++ c.name, by
            simp [P3.resolveUnitActions, hct, hga]⟩
        | some a => exact ⟨e, by simp [P3.resolveUnitActions, hct, hga, he]⟩

/-- Claim C1: if any change of either list has kind Deleted, the resolution
pipeline forces the reboot outcome regardless of the policy table contents —
`P0.runPostUpdateActions` returns `true` having invoked no action, and
`P3.getPostUpdateActions` returns an error and no action plan. -/
theorem c1_deleted_forces_reboot (env : ExecEnv)
    (config : P0.AvoidRebootConfig) (config3 : P3.AvoidRebootConfig)
    (filesChanges : List P0.FileChanged) (unitsChanges : List P0.UnitChanged)
    (filesChanges3 : List P3.FileChange) (unitsChanges3 : List P3.UnitChange)
    (h0 : (∃ c ∈ filesChanges, c.changeType = .fileDeleted) ∨
          (∃ c ∈ unitsChanges, c.changeType = .fileDeleted))
    (h3 : (∃ c ∈ filesChanges3, c.changeType = .changeDeleted) ∨
          (∃ c ∈ unitsChanges3, c.changeType = .changeDeleted)) :
    P0.runPostUpdateActions env config filesChanges unitsChanges = (true, [])
    ∧ ∃ e, P3.getPostUpdateActions config3 filesChanges3 unitsChanges3 = .error e := by
  constructor
  · rcases h0 with hf | hu
    · obtain ⟨e, he⟩ := p0_resolveFileActions_error_of_deleted config filesChanges hf
      simp [P0.runPostUpdateActions, he]
    · obtain ⟨e, he⟩ := p0_resolveUnitActions_error_of_deleted config unitsChanges hu
      cases hr : P0.resolveFileActions config filesChanges with
      | error e2 => simp [P0.runPostUpdateActions, hr]
      | ok acts => simp [P0.runPostUpdateActions, hr, he]
  · rcases h3 with hf | hu
    · obtain ⟨e, he⟩ := p3_resolveFileActions_error_of_deleted config3 filesChanges3 hf
      exact ⟨e, by simp [P3.getPostUpdateActions, he]⟩
    · obtain ⟨e, he⟩ := p3_resolveUnitActions_error_of_deleted config3 unitsChanges3 hu
      cases hr : P3.resolveFileActions config3 filesChanges3 with
      | error e2 => exact ⟨e2, by simp [P3.getPostUpdateActions, hr]⟩
      | ok acts => exact ⟨e, by simp [P3.getPostUpdateActions, hr, he]⟩

/-- Witness for C1: a single deleted file change at the real filter tables. -/
theorem c1_witness :
    P0.runPostUpdateActions envAllOk P0.FilterConfig [delFileChange] [] = (true, [])
    ∧ ∃ e, P3.getPostUpdateActions P3.filterConfig [delFileChange3] [] = .error e :=
  c1_deleted_forces_reboot envAllOk P0.FilterConfig P3.filterConfig
    [delFileChange] [] [delFileChange3] []
    (Or.inl (by decide)) (Or.inl (by decide))

/-- Claim C2 is a code bug in `RF.runPostActions`: an updated change matching
zero rules does not yield `RequiresReboot = true` — the nil lookup result is
appended to the action slice (the `action != nil` test is inverted) and the
run loop then panics calling `Run` on a nil interface.  Inversely, an updated
change that does have a matching rule makes the function return `true`.  The
most complete revision, `P0.runPostUpdateActions`, behaves as the claim
states: no match yields `(true, [])` with no action executed. -/
theorem c2_no_match_fail_safe_bug (env : ExecEnv) :
    RF.runPostActions env RF.FilterConfig
      [ { name := "/etc/other.conf", file := zeroFile, changeType := .fileUpdated } ] = none
    ∧ RF.runPostActions env RF.FilterConfig
      [ { name := "/etc/kubernetes/kubelet.conf", file := zeroFile,
          changeType := .fileUpdated } ] = some true
    ∧ P0.runPostUpdateActions env P0.FilterConfig
      [ { name := "/etc/other.conf", file := zeroFile, changeType := .fileUpdated } ] []
        = (true, []) :=
  ⟨rfl, rfl, rfl⟩

/-- Claim C3 is a code bug in `RF.getFilesDiff`: for the disjoint snapshots
`A = [fileA]`, `B = [fileB]` the function panics (its name sets contain the
nil entries produced by `RF.getFileNames`, and a nil set element reaches the
`.(string)` type assertion) instead of producing one Deleted change for `/a`
and one Created change for `/b`; its created/deleted loops also iterate the
swapped difference sets.  The most complete revision, `P0.getFilesChanges`,
produces exactly the claimed changes. -/
theorem c3_differ_classification_bug :
    RF.getFilesDiff [fileA] [fileB] = none
    ∧ P0.getFilesChanges [fileA] [fileB] =
        [ { name := "/b", file := fileB, changeType := .fileCreated },
          { name := "/a", file := fileA, changeType := .fileDeleted } ] :=
  ⟨rfl, rfl⟩

/-- Claim C4 is a code bug in the unit differ: `unitX1` and `unitX2` share the
identity `x.service` with different bodies, yet `P0.getUnitsChanges` emits no
Updated change for it, because `unitsToMap` stores `&unit` — the shared
range-loop variable — so the comparison sees the last elements of both lists
(`unitY0` on each side) instead of the candidate units.  The file differ,
whose map stores values, emits exactly one Updated change on the analogous
input. -/
theorem c4_unit_updated_detection_bug :
    unitX1.Contents ≠ unitX2.Contents
    ∧ P0.getUnitsChanges [unitX1, unitY0] [unitX2, unitY0] = []
    ∧ P0.getFilesChanges [fileX1, fileY0] [fileX2, fileY0] =
        [ { name := "x", file := fileX2, changeType := .fileUpdated } ] :=
  ⟨by decide, rfl, rfl⟩

/-- If the entry at index `i` of the table matches, `P0.getFileActionLoop`
returns the action of the first matching entry, whose index is at most `i`. -/
theorem p0_getFileActionLoop_first (filePath : String) :
    ∀ (l : List P0.FileFilterEntry) (i : Nat) (hi : i < l.length),
      filepath.Match (l.get ⟨i, hi⟩).Glob filePath = .ok true →
      ∃ (k : Nat) (hk : k < l.length), k ≤ i
        ∧ filepath.Match (l.get ⟨k, hk⟩).Glob filePath = .ok true
        ∧ (∀ (m : Nat) (hm : m < l.length), m < k →
            filepath.Match (l.get ⟨m, hm⟩).Glob filePath ≠ .ok true)
        ∧ P0.getFileActionLoop filePath l = some (l.get ⟨k, hk⟩).PostUpdateAction := by
  intro l
  induction l with
  | nil => intro i hi _; exact absurd hi (Nat.not_lt_zero i)
  | cons e rest ih =>
    intro i hi hmi
    by_cases he : filepath.Match e.Glob filePath = .ok true
    · refine ⟨0, by simp, Nat.zero_le _, by simpa using he, ?_, ?_⟩
      · intro m hm hlt; omega
      · simp [P0.getFileActionLoop, he]
    · have hstep : P0.getFileActionLoop filePath (e :: rest)
          = P0.getFileActionLoop filePath rest := by
        cases hM : filepath.Match e.Glob filePath with
        | error err => simp [P0.getFileActionLoop, hM]
        | ok b =>
          cases b with
          | true => exact absurd hM he
          | false => simp [P0.getFileActionLoop, hM]
      cases i with
      | zero => exact absurd (by simpa using hmi) he
      | succ i2 =>
        have hi2 : i2 < rest.length := by simpa using hi
        have hmi2 : filepath.Match (rest.get ⟨i2, hi2⟩).Glob filePath = .ok true := by
          simpa using hmi
        obtain ⟨k2, hk2, hle, hmk, hmin, hloop⟩ := ih i2 hi2 hmi2
        refine ⟨k2 + 1, by simpa using Nat.succ_lt_succ hk2, Nat.succ_le_succ hle,
          by simpa using hmk, ?_, ?_⟩
        · intro m hm hlt
          cases m with
          | zero => simpa using he
          | succ m2 =>
            have hm2 : m2 < rest.length := by simpa using hm
            have := hmin m2 hm2 (by omega)
            simpa using this
        · rw [hstep, hloop]
          simp

/-- Claim C5: policy lookup is first-match-wins — whenever the rules at
indices `i < j` both match the path, `GetFileAction` returns the action of
the first matching rule, whose index is at most `i`, never the later one;
the result is determined by table order alone. -/
theorem c5_first_match_wins (config : P0.AvoidRebootConfig) (filePath : String)
    (i j : Nat) (hi : i < config.Files.length) (hj : j < config.Files.length)
    (hij : i < j)
    (hmi : filepath.Match (config.Files.get ⟨i, hi⟩).Glob filePath = .ok true)
    (hmj : filepath.Match (config.Files.get ⟨j, hj⟩).Glob filePath = .ok true) :
    ∃ (k : Nat) (hk : k < config.Files.length), k ≤ i
      ∧ filepath.Match (config.Files.get ⟨k, hk⟩).Glob filePath = .ok true
      ∧ (∀ (m : Nat) (hm : m < config.Files.length), m < k →
          filepath.Match (config.Files.get ⟨m, hm⟩).Glob filePath ≠ .ok true)
      ∧ P0.GetFileAction config filePath
          = some (config.Files.get ⟨k, hk⟩).PostUpdateAction :=
  p0_getFileActionLoop_first filePath config.Files i hi hmi

/-- Witness for C5 at `cfgTwoMatches`: rules 0 (`/a`) and 1 (`/*`) both match
`/a`; the lookup returns rule 0's action. -/
theorem c5_witness :
    ∃ (k : Nat) (hk : k < cfgTwoMatches.Files.length), k ≤ 0
      ∧ filepath.Match (cfgTwoMatches.Files.get ⟨k, hk⟩).Glob "/a" = .ok true
      ∧ (∀ (m : Nat) (hm : m < cfgTwoMatches.Files.length), m < k →
          filepath.Match (cfgTwoMatches.Files.get ⟨m, hm⟩).Glob "/a" ≠ .ok true)
      ∧ P0.GetFileAction cfgTwoMatches "/a"
          = some (cfgTwoMatches.Files.get ⟨k, hk⟩).PostUpdateAction :=
  c5_first_match_wins cfgTwoMatches "/a" 0 1 (by decide) (by decide) (by decide)
    (by decide) (by decide)

/-- The executor runs every action in plan order and reports success when no
action fails. -/
theorem p3_runPostUpdateActions_all_ok (env : ExecEnv) :
    ∀ plan : List P3.PostUpdateAction, (∀ a ∈ plan, P3.Run env a = .ok ()) →
      P3.runPostUpdateActions env plan = (false, plan) := by
  intro plan
  induction plan with
  | nil => intro _; rfl
  | cons a rest ih =>
    intro hall
    have ha := hall a (List.mem_cons_self a rest)
    have hrest := ih (fun x hx => hall x (List.mem_cons_of_mem a hx))
    simp [P3.runPostUpdateActions, ha, hrest]

/-- The executor stops at the first failing action: it invokes exactly the
actions at indices `0..i` and reports failure. -/
theorem p3_runPostUpdateActions_first_fail (env : ExecEnv) :
    ∀ (plan : List P3.PostUpdateAction) (i : Nat) (hi : i < plan.length),
      (∀ (j : Nat) (hj : j < plan.length), j < i →
        P3.Run env (plan.get ⟨j, hj⟩) = .ok ()) →
      P3.Run env (plan.get ⟨i, hi⟩) ≠ .ok () →
      P3.runPostUpdateActions env plan = (true, plan.take (i + 1)) := by
  intro plan
  induction plan with
  | nil => intro i hi; exact absurd hi (Nat.not_lt_zero i)
  | cons a rest ih =>
    intro i hi hok hfail
    cases i with
    | zero =>
      have ha : P3.Run env a ≠ .ok () := by simpa using hfail
      cases hr : P3.Run env a with
      | ok u => cases u; exact absurd hr ha
      | error e => simp [P3.runPostUpdateActions, hr]
    | succ i2 =>
      have ha : P3.Run env a = .ok () := by
        have := hok 0 (by simp) (Nat.succ_pos i2)
        simpa using this
      have hi2 : i2 < rest.length := by simpa using hi
      have hok2 : ∀ (j : Nat) (hj : j < rest.length), j < i2 →
          P3.Run env (rest.get ⟨j, hj⟩) = .ok () := by
        intro j hj hlt
        have := hok (j + 1) (by simpa using Nat.succ_lt_succ hj) (Nat.succ_lt_succ hlt)
        simpa using this
      have hfail2 : P3.Run env (rest.get ⟨i2, hi2⟩) ≠ .ok () := by simpa using hfail
      have hr := ih i2 hi2 hok2 hfail2
      simp [P3.runPostUpdateActions, ha, hr]

/-- Claim C6: execution stops at the first failing action — if the action at
index `i` is the first whose `Run` fails, the executor invokes exactly the
actions at indices `0..i` in plan order (the second component, `take (i+1)`)
and reports the pass as failed; with no failure every action runs in order
and the pass is reported successful. -/
theorem c6_executor_short_circuit (env : ExecEnv) (plan : List P3.PostUpdateAction) :
    ((∀ a ∈ plan, P3.Run env a = .ok ()) →
      P3.runPostUpdateActions env plan = (false, plan))
    ∧ (∀ (i : Nat) (hi : i < plan.length),
        (∀ (j : Nat) (hj : j < plan.length), j < i →
          P3.Run env (plan.get ⟨j, hj⟩) = .ok ()) →
        P3.Run env (plan.get ⟨i, hi⟩) ≠ .ok () →
        P3.runPostUpdateActions env plan = (true, plan.take (i + 1))) :=
  ⟨p3_runPostUpdateActions_all_ok env plan, p3_runPostUpdateActions_first_fail env plan⟩

/-- Witness for C6: in the three-action plan whose second action fails, the
executor runs exactly the first two actions and reports failure. -/
theorem c6_witness :
    P3.runPostUpdateActions envFailOnly planThree = (true, planThree.take 2) :=
  (c6_executor_short_circuit envFailOnly planThree).2 1 (by decide) (by decide) (by decide)

/-- `isDrainRequired`'s fold with seed `b` computes `b || any`. -/
theorem p3_isDrainRequired_foldl (b : Bool) (actions : List P3.PostUpdateAction) :
    actions.foldl (fun isRequired action => isRequired || P3.getIsDrainRequired action) b
      = (b || actions.any P3.getIsDrainRequired) := by
  induction actions generalizing b with
  | nil => simp
  | cons a rest ih => simp [List.foldl, ih, Bool.or_assoc]

/-- Claim C7: drain aggregation is an any-fold — `isDrainRequired` is true
iff some action of the plan has its drain flag set, and is false on the empty
plan. -/
theorem c7_drain_aggregation :
    (∀ actions : List P3.PostUpdateAction,
      (P3.isDrainRequired actions = true ↔ ∃ a ∈ actions, P3.getIsDrainRequired a = true))
    ∧ P3.isDrainRequired [] = false := by
  constructor
  · intro actions
    rw [P3.isDrainRequired, p3_isDrainRequired_foldl]
    simp [List.any_eq_true]
  · rfl

/-- `P0.GetUnitAction` finds an action exactly when the unit name occurs
literally in the unit list. -/
theorem p0_getUnitActionLoop_isSome (unitName : String) :
    ∀ l : List String, (P0.getUnitActionLoop unitName l).isSome ↔ unitName ∈ l := by
  intro l
  induction l with
  | nil => simp [P0.getUnitActionLoop]
  | cons e rest ih =>
    by_cases he : e = unitName
    · subst he
      simp [P0.getUnitActionLoop]
    · have he2 : ¬ (unitName = e) := fun h => he h.symm
      simp [P0.getUnitActionLoop, he, he2, ih, List.mem_cons]

/-- `P3.getUnitAction` finds an action exactly when some rule's name equals
the unit name. -/
theorem p3_getUnitActionLoop_isSome (unitName : String) :
    ∀ l : List P3.UnitFilterEntry,
      (P3.getUnitActionLoop unitName l).isSome ↔ ∃ e ∈ l, e.name = unitName := by
  intro l
  induction l with
  | nil => simp [P3.getUnitActionLoop]
  | cons e rest ih =>
    by_cases he : e.name = unitName
    · simp [P3.getUnitActionLoop, he]
    · simp [P3.getUnitActionLoop, he, ih]

/-- Claim C8 counterexample: the matcher `*.service` glob-matches the unit
name `foo.service` (`filepath.Match` returns true), yet both revisions' unit
lookups return no action for it — unit rules are compared by plain string
equality only, so the claimed glob matching does not happen. -/
theorem c8_counterexample :
    filepath.Match "*.service" "foo.service" = .ok true
    ∧ P0.GetUnitAction cfgGlobUnitP0 "foo.service" = none
    ∧ P3.getUnitAction cfgGlobUnitP3 "foo.service" = none :=
  ⟨rfl, rfl, rfl⟩

/-- Claim C8 amended: a unit rule matches only when its matcher equals the
unit name exactly; the unit lookups return an action iff some rule's matcher
is literally the unit name (glob patterns in unit matchers are never
interpreted). -/
theorem c8_amended_exact_name_only (config0 : P0.AvoidRebootConfig)
    (config3 : P3.AvoidRebootConfig) (unitName : String) :
    ((P0.GetUnitAction config0 unitName).isSome ↔ unitName ∈ config0.Units)
    ∧ ((P3.getUnitAction config3 unitName).isSome ↔ ∃ e ∈ config3.Units, e.name = unitName) :=
  ⟨p0_getUnitActionLoop_isSome unitName config0.Units,
   p3_getUnitActionLoop_isSome unitName config3.Units⟩

/-- Claim C9 counterexample at `cfgBadGlob` and path `/a`: the malformed rule
`[` is reported by the matcher, the rule is skipped and the later matching
rule is still found, but no warning-level error is surfaced to the caller —
the loop's error branch is a bare `continue` under a `TODO: log` comment, so
the warning channel stays empty, refuting the claim's surfacing conjunct. -/
theorem c9_counterexample :
    filepath.Match "[" "/a" = .error .badPattern
    ∧ P0.getFileActionLogLoop "/a" cfgBadGlob.Files = (some actB, [])
    ∧ ¬ ((P0.getFileActionLogLoop "/a" cfgBadGlob.Files).2 ≠ []) :=
  ⟨rfl, rfl, fun h => h rfl⟩

/-- Claim C9 amended: a rule whose glob the pattern matcher reports malformed
for the given path is skipped — evaluation continues with the remaining rules
exactly as if the rule were absent, so a later matching rule is still found —
but the condition is not surfaced to the caller in any way. -/
theorem c9_amended_malformed_skipped_silently (filePath : String)
    (entry : P0.FileFilterEntry) (rest : List P0.FileFilterEntry)
    (hbad : filepath.Match entry.Glob filePath = .error .badPattern) :
    P0.getFileActionLoop filePath (entry :: rest) = P0.getFileActionLoop filePath rest
    ∧ P0.getFileActionLogLoop filePath (entry :: rest)
        = P0.getFileActionLogLoop filePath rest := by
  constructor
  · simp [P0.getFileActionLoop, hbad]
  · simp [P0.getFileActionLogLoop, hbad]

/-- Witness for the amended C9: dropping the malformed `[` rule of
`cfgBadGlob` leaves both the lookup result and the (empty) warning output
unchanged. -/
theorem c9_witness :
    P0.getFileActionLoop "/a" cfgBadGlob.Files
      = P0.getFileActionLoop "/a" [ { Glob := "/a", PostUpdateAction := actB, Drain := false } ]
    ∧ P0.getFileActionLogLoop "/a" cfgBadGlob.Files
      = P0.getFileActionLogLoop "/a"
          [ { Glob := "/a", PostUpdateAction := actB, Drain := false } ] :=
  c9_amended_malformed_skipped_silently "/a"
    { Glob := "[", PostUpdateAction := actA, Drain := false }
    [ { Glob := "/a", PostUpdateAction := actB, Drain := false } ] rfl

/-- One pass of the `unitsToMap` loop: the keys collect every unit name and
the shared cell ends up holding the last unit (or keeps its old content when
the list is empty). -/
theorem p0_unitsToMapLoop_spec :
    ∀ (units : List igntypes.Unit) (m : P0.UnitsMap),
      P0.unitsToMapLoop m units
        = { keys := m.keys ++ units.map (fun u => u.Name),
            cell := units.getLast?.or m.cell } := by
  intro units
  induction units with
  | nil => intro m; simp [P0.unitsToMapLoop]
  | cons u rest ih =>
    intro m
    rw [P0.unitsToMapLoop, ih]
    cases hr : rest with
    | nil => simp
    | cons v vs =>
      have hsome : ((v :: vs).getLast?).isSome := by
        rw [List.getLast?_isSome]
        simp
      obtain ⟨w, hw⟩ := Option.isSome_iff_exists.mp hsome
      simp [List.getLast?_cons_cons, hw]

/-- `unitsToMap` is the pair of the name list and the last unit. -/
theorem p0_unitsToMap_spec (units : List igntypes.Unit) :
    P0.unitsToMap units = { keys := P0.getUnitNames units, cell := units.getLast? } := by
  rw [P0.unitsToMap, p0_unitsToMapLoop_spec]
  simp [P0.getUnitNames]

/-- Looking up any present name in the map built by `unitsToMap` dereferences
the shared cell: the result is the last unit of the list. -/
theorem p0_unitsToMap_lookup (units : List igntypes.Unit) (name : String)
    (hmem : name ∈ P0.getUnitNames units) :
    (P0.unitsToMap units).lookup name = units.getLast? := by
  rw [p0_unitsToMap_spec]
  simp [P0.UnitsMap.lookup, hmem]

/-- Claim C10 (implicit): every value of the map built by `unitsToMap` is a
pointer to the same loop variable, which after the loop holds the last unit
of the list — so looking up the name of a unit other than the last yields a
unit not bearing that name, and the unit differ's Updated comparison compares
the last elements of the two input lists instead of the candidate units: an
Updated change is emitted for a shared identity iff the two lists' last
elements differ. -/
theorem c10_unitsToMap_aliasing :
    (∀ (units : List igntypes.Unit) (u v : igntypes.Unit),
      u ∈ units → units.getLast? = some v →
      (P0.unitsToMap units).lookup u.Name = some v
      ∧ (u.Name ≠ v.Name → (P0.unitsToMap units).lookup u.Name ≠ some u))
    ∧ (∀ (oldUnitsConfig newUnitsConfig : List igntypes.Unit) (c : String),
        c ∈ setIntersect (newSetFromSlice (P0.getUnitNames newUnitsConfig))
              (newSetFromSlice (P0.getUnitNames oldUnitsConfig)) →
        ((∃ ch ∈ P0.getUnitsChanges oldUnitsConfig newUnitsConfig,
            ch.name = c ∧ ch.changeType = .fileUpdated)
          ↔ newUnitsConfig.getLast? ≠ oldUnitsConfig.getLast?)) := by
  constructor
  · intro units u v hu hv
    have hmem : u.Name ∈ P0.getUnitNames units :=
      List.mem_map_of_mem (fun x => x.Name) hu
    have hl := p0_unitsToMap_lookup units u.Name hmem
    rw [hv] at hl
    refine ⟨hl, ?_⟩
    intro hne hcontra
    rw [hl] at hcontra
    exact hne (by rw [Option.some_inj.mp hcontra])
  · intro oldU newU c hc
    have hcNew2 : c ∈ newSetFromSlice (P0.getUnitNames newU) := (List.mem_filter.mp hc).1
    have hcOld : c ∈ P0.getUnitNames oldU := by
      have h1 := (List.mem_filter.mp hc).2
      have h2 := of_decide_eq_true h1
      exact List.mem_dedup.mp h2
    have hcNew : c ∈ P0.getUnitNames newU := List.mem_dedup.mp hcNew2
    have hlookN := p0_unitsToMap_lookup newU c hcNew
    have hlookO := p0_unitsToMap_lookup oldU c hcOld
    constructor
    · rintro ⟨ch, hch, hname, htype⟩
      simp only [P0.getUnitsChanges] at hch
      rcases List.mem_append.mp hch with h12 | hupd
      · rcases List.mem_append.mp h12 with hcr | hdel
        · obtain ⟨n, hn, hchEq⟩ := List.mem_map.mp hcr
          rw [← hchEq] at htype
          simp at htype
        · obtain ⟨n, hn, hchEq⟩ := List.mem_map.mp hdel
          rw [← hchEq] at htype
          simp at htype
      · obtain ⟨n, hn, hfn⟩ := List.mem_filterMap.mp hupd
        by_cases heq : (P0.unitsToMap newU).lookup n = (P0.unitsToMap oldU).lookup n
        · rw [if_pos heq] at hfn
          cases hfn
        · have hnNew : n ∈ P0.getUnitNames newU :=
            List.mem_dedup.mp (List.mem_filter.mp hn).1
          have hnOld : n ∈ P0.getUnitNames oldU :=
            List.mem_dedup.mp (of_decide_eq_true (List.mem_filter.mp hn).2)
          rw [p0_unitsToMap_lookup newU n hnNew, p0_unitsToMap_lookup oldU n hnOld] at heq
          exact heq
    · intro hne
      have hcond : ¬ ((P0.unitsToMap newU).lookup c = (P0.unitsToMap oldU).lookup c) := by
        rw [hlookN, hlookO]
        exact hne
      refine ⟨{ name := c, newUnit := (P0.unitsToMap newU).lookup c,
                oldUnit := (P0.unitsToMap oldU).lookup c, changeType := .fileUpdated },
              ?_, rfl, rfl⟩
      simp only [P0.getUnitsChanges]
      apply List.mem_append.mpr
      right
      apply List.mem_filterMap.mpr
      exact ⟨c, hc, by rw [if_neg hcond]⟩

/-- Witness for C10: in `[unitX1, unitY0]` the lookup of `x.service` yields
`unitY0`; and for old `[unitX1, unitY0]` / new `[unitX2, unitY0]` an Updated
change for `x.service` is emitted iff the two last elements differ (they do
not, so none is emitted although `x.service` changed). -/
theorem c10_witness :
    ((P0.unitsToMap [unitX1, unitY0]).lookup unitX1.Name = some unitY0
      ∧ (unitX1.Name ≠ unitY0.Name →
          (P0.unitsToMap [unitX1, unitY0]).lookup unitX1.Name ≠ some unitX1))
    ∧ ((∃ ch ∈ P0.getUnitsChanges [unitX1, unitY0] [unitX2, unitY0],
          ch.name = "x.service" ∧ ch.changeType = .fileUpdated)
        ↔ [unitX2, unitY0].getLast? ≠ [unitX1, unitY0].getLast?) :=
  ⟨c10_unitsToMap_aliasing.1 [unitX1, unitY0] unitX1 unitY0 (by decide) (by decide),
   c10_unitsToMap_aliasing.2 [unitX1, unitY0] [unitX2, unitY0] "x.service" (by decide)⟩
